import Mathlib

/-!
Verification of the gmaps-scraper core against its specification.

The Python sources are shallowly embedded: Python floats become exact
rationals (`ℚ`), Python dicts used as insertion-ordered maps become
association lists, and fallible conversions return `Option`.
-/

namespace GScraper

/-! ### Business records and deduplication (`src/mega_scraper.py`) -/

/-- The `Business` dataclass of `src/mega_scraper.py`.  Floats are modelled
as rationals; `reviews` (a Python `int`) as `ℤ`. -/
structure Business where
  name : String
  address : String
  phone : String
  website : String
  category : String
  lat : ℚ
  lng : ℚ
  source : String
  source_id : String
  rating : ℚ := 0
  reviews : ℤ := 0
deriving Repr, DecidableEq

/-- Python `round` to an integer: round half to even (banker's rounding),
on exact rationals. -/
def pyRoundInt (q : ℚ) : ℤ :=
  let fl := ⌊q⌋
  let frac := q - fl
  if 1/2 < frac then fl + 1
  else if frac < 1/2 then fl
  else if fl % 2 = 0 then fl else fl + 1

/-- Python `round(x, 3)`, on exact rationals. -/
def pyRound3 (q : ℚ) : ℚ := (pyRoundInt (q * 1000) : ℚ) / 1000

/-- Rendering of a rounded coordinate inside the f-string
`f"{name_clean}_{lat_round}_{lng_round}"`.  Python renders the float in
decimal form; the embedding renders the exact rational as `num/den`.
Every statement below depends only on this being a fixed function of the
rounded value, shared by the code-side and spec-side key definitions. -/
def ratRepr (q : ℚ) : String := toString q.num ++ "/" ++ toString q.den

/-- Python regex class `\w` restricted to ASCII: letters, digits and the
underscore.  Stripping with the negated `\w` class keeps exactly these
characters (`Char.isAlphanum` matches the ASCII part of Python semantics;
non-ASCII word characters are outside the embedding). -/
def isWordChar (c : Char) : Bool := c.isAlphanum || c = '_'

/-- Python `str.lower()`, restricted to ASCII: lower-case each character.
(A character-wise map; `Char.toLower` agrees with Python on ASCII.) -/
def pyLower (s : String) : List Char := s.toList.map Char.toLower

/-- The name part of `Business.dedup_key`: lower-case, keep only `\w`
characters, truncate to 20. -/
def nameClean (s : String) : String :=
  (((pyLower s).filter isWordChar).take 20).asString

/-- The key `Business.dedup_key` of `src/mega_scraper.py`:
`f"{name_clean}_{lat_round}_{lng_round}"`. -/
def Business.dedup_key (b : Business) : String :=
  nameClean b.name ++ "_" ++ ratRepr (pyRound3 b.lat) ++ "_" ++ ratRepr (pyRound3 b.lng)

/-- Modelled from the spec's words (§3): the name part of the dedup key
lower-cases and strips ALL non-alphanumeric characters — underscore
included — before truncating to 20 characters. -/
def specNameClean (s : String) : String :=
  (((pyLower s).filter (fun c => c.isAlphanum)).take 20).asString

/-- Modelled from the spec's words (§3): the full dedup key built from
`specNameClean`. -/
def specDedupKey (b : Business) : String :=
  specNameClean b.name ++ "_" ++ ratRepr (pyRound3 b.lat) ++ "_" ++ ratRepr (pyRound3 b.lng)

/-- The amended name normalisation: lower-case and strip all characters
other than letters, digits and underscores, then truncate to 20. -/
def amendedNameClean (s : String) : String :=
  (((pyLower s).filter (fun c => c.isAlphanum || c = '_')).take 20).asString

/-- The amended dedup key built from `amendedNameClean`. -/
def amendedDedupKey (b : Business) : String :=
  amendedNameClean b.name ++ "_" ++ ratRepr (pyRound3 b.lat) ++ "_" ++ ratRepr (pyRound3 b.lng)

/-- Lookup in the insertion-ordered `seen` map (`key in seen` /
`seen[key]` on a Python dict). -/
def alookup (es : List (String × Business)) (k : String) : Option Business :=
  match es with
  | [] => none
  | (k', b) :: rest => if k' = k then some b else alookup rest k

/-- Assignment `seen[key] = biz` to a key already present: the entry keeps
its position in insertion order. -/
def aupdate (es : List (String × Business)) (k : String) (b : Business) :
    List (String × Business) :=
  match es with
  | [] => []
  | (k', b') :: rest => if k' = k then (k', b) :: rest else (k', b') :: aupdate rest k b

/-- One iteration of the `for biz in businesses` loop of
`deduplicate_businesses` in `src/mega_scraper.py`. -/
def dedupStep (seen : List (String × Business)) (biz : Business) :
    List (String × Business) :=
  match alookup seen biz.dedup_key with
  | none => seen ++ [(biz.dedup_key, biz)]
  | some existing =>
      if existing.address.length < biz.address.length then
        aupdate seen biz.dedup_key biz
      else if biz.phone ≠ "" ∧ existing.phone = "" then
        aupdate seen biz.dedup_key biz
      else
        seen

/-- The function `deduplicate_businesses` of `src/mega_scraper.py`:
fold the records
into the `seen` map and return `list(seen.values())`. -/
def deduplicate_businesses (businesses : List Business) : List Business :=
  (businesses.foldl dedupStep []).map Prod.snd

/-! #### Association-list lemmas -/

theorem alookup_aupdate_self (es : List (String × Business)) (k : String)
    (b ex : Business) (h : alookup es k = some ex) :
    alookup (aupdate es k b) k = some b := by
  induction es with
  | nil => simp [alookup] at h
  | cons hd tl ih =>
      obtain ⟨k', b'⟩ := hd
      by_cases hk : k' = k
      · simp [alookup, aupdate, hk]
      · simp only [alookup, aupdate, if_neg hk] at h ⊢
        exact ih h

theorem mem_aupdate (es : List (String × Business)) (k : String)
    (b : Business) (p : String × Business) (h : p ∈ aupdate es k b) :
    p ∈ es ∨ p = (k, b) := by
  induction es with
  | nil => simp [aupdate] at h
  | cons hd tl ih =>
      obtain ⟨k', b'⟩ := hd
      by_cases hk : k' = k
      · simp only [aupdate, if_pos hk] at h
        rcases List.mem_cons.mp h with h1 | h1
        · right; rw [h1, hk]
        · left; exact List.mem_cons_of_mem _ h1
      · simp only [aupdate, if_neg hk] at h
        rcases List.mem_cons.mp h with h1 | h1
        · left; rw [h1]; exact List.mem_cons_self _ _
        · rcases ih h1 with h2 | h2
          · left; exact List.mem_cons_of_mem _ h2
          · right; exact h2

theorem aupdate_map_fst (es : List (String × Business)) (k : String)
    (b : Business) : (aupdate es k b).map Prod.fst = es.map Prod.fst := by
  induction es with
  | nil => rfl
  | cons hd tl ih =>
      obtain ⟨k', b'⟩ := hd
      by_cases hk : k' = k
      · simp [aupdate, hk]
      · simp [aupdate, hk, ih]

theorem alookup_eq_none_iff (es : List (String × Business)) (k : String) :
    alookup es k = none ↔ k ∉ es.map Prod.fst := by
  induction es with
  | nil => simp [alookup]
  | cons hd tl ih =>
      obtain ⟨k', b'⟩ := hd
      by_cases hk : k' = k
      · simp [alookup, hk]
      · simp [alookup, hk, ih, Ne.symm hk]

/-- Every entry produced by one dedup step is an old entry or the incoming
record keyed by its own dedup key. -/
theorem mem_dedupStep (seen : List (String × Business)) (biz : Business)
    (p : String × Business) (h : p ∈ dedupStep seen biz) :
    p ∈ seen ∨ p = (biz.dedup_key, biz) := by
  rcases hl : alookup seen biz.dedup_key with _ | ex
  · simp only [dedupStep, hl] at h
    rcases List.mem_append.mp h with h1 | h1
    · exact Or.inl h1
    · simp only [List.mem_singleton] at h1
      exact Or.inr h1
  · simp only [dedupStep, hl] at h
    by_cases h1 : ex.address.length < biz.address.length
    · rw [if_pos h1] at h
      exact mem_aupdate _ _ _ _ h
    · rw [if_neg h1] at h
      by_cases h2 : biz.phone ≠ "" ∧ ex.phone = ""
      · rw [if_pos h2] at h
        exact mem_aupdate _ _ _ _ h
      · rw [if_neg h2] at h
        exact Or.inl h

theorem mem_dedupFold (bs : List Business) :
    ∀ (acc : List (String × Business)) (p : String × Business),
      p ∈ bs.foldl dedupStep acc → p ∈ acc ∨ p.2 ∈ bs := by
  induction bs with
  | nil => intro acc p h; simp only [List.foldl_nil] at h; exact Or.inl h
  | cons b rest ih =>
      intro acc p h
      simp only [List.foldl_cons] at h
      rcases ih _ p h with h1 | h1
      · rcases mem_dedupStep _ _ _ h1 with h2 | h2
        · exact Or.inl h2
        · right; rw [h2]; exact List.mem_cons_self _ _
      · right; exact List.mem_cons_of_mem _ h1

/-! ### C2 / C3 / C8 theorems -/

/-- C2: for an incoming record whose dedup key is already stored, the step
replaces the stored record exactly when the incoming address is strictly
longer or the incoming phone is non-empty while the stored one is empty;
and every output record of the deduplicator is one of the input records
wholesale. -/
theorem c2_dedup_replacement :
    (∀ (seen : List (String × Business)) (biz existing : Business),
        alookup seen biz.dedup_key = some existing →
        alookup (dedupStep seen biz) biz.dedup_key =
          some (if existing.address.length < biz.address.length ∨
                  (biz.phone ≠ "" ∧ existing.phone = "")
                then biz else existing))
    ∧ (∀ (bs : List Business) (b : Business),
        b ∈ deduplicate_businesses bs → b ∈ bs) := by
  constructor
  · intro seen biz existing h
    simp only [dedupStep, h]
    by_cases h1 : existing.address.length < biz.address.length
    · rw [if_pos h1, if_pos (Or.inl h1)]
      exact alookup_aupdate_self _ _ _ _ h
    · rw [if_neg h1]
      by_cases h2 : biz.phone ≠ "" ∧ existing.phone = ""
      · rw [if_pos h2, if_pos (Or.inr h2)]
        exact alookup_aupdate_self _ _ _ _ h
      · rw [if_neg h2, if_neg (by tauto)]
        exact h
  · intro bs b h
    unfold deduplicate_businesses at h
    rcases List.mem_map.mp h with ⟨p, hp, hpb⟩
    rcases mem_dedupFold bs [] p hp with h1 | h1
    · simp at h1
    · rw [← hpb]; exact h1

/-- A record with no distinguishing data, used in concrete witnesses. -/
def bizShort : Business :=
  { name := "cafe", address := "", phone := "", website := "", category := "",
    lat := 40, lng := -3, source := "osm", source_id := "1" }

/-- Same dedup key as `bizShort` but with a longer address. -/
def bizLong : Business := { bizShort with address := "Main St", source_id := "2" }

/-- Witness for C2 at a concrete map: the longer-address incoming record
replaces the stored one. -/
theorem c2_dedup_replacement_witness :
    alookup (dedupStep [(bizShort.dedup_key, bizShort)] bizLong) bizLong.dedup_key
      = some bizLong := by
  have hk : bizShort.dedup_key = bizLong.dedup_key := rfl
  have hl : alookup [(bizShort.dedup_key, bizShort)] bizLong.dedup_key = some bizShort := by
    simp [alookup, hk]
  have h := c2_dedup_replacement.1 [(bizShort.dedup_key, bizShort)] bizLong bizShort hl
  rw [if_pos (Or.inl (show bizShort.address.length < bizLong.address.length from
    by decide))] at h
  exact h

/-- C3 counterexample: the code keeps underscores in the name part of the
dedup key (`\w` matches `_`), while the claim strips all non-alphanumeric
characters. -/
def underscoreBiz : Business :=
  { name := "a_b", address := "", phone := "", website := "", category := "",
    lat := 0, lng := 0, source := "osm", source_id := "3" }

/-- C3 counterexample: at a record named `"a_b"` the code's dedup key and
the spec's claimed dedup key differ (the code keeps the underscore, so the
name parts have lengths 3 and 2 while the coordinate parts coincide). -/
theorem c3_dedup_key_counterexample :
    underscoreBiz.dedup_key ≠ specDedupKey underscoreBiz := by
  intro h
  have hlen := congrArg String.length h
  simp only [Business.dedup_key, specDedupKey, String.length_append] at hlen
  have e1 : (nameClean underscoreBiz.name).length = 3 := rfl
  have e2 : (specNameClean underscoreBiz.name).length = 2 := rfl
  omega

/-- C3 amended: the dedup key equals the name lower-cased with all
characters other than letters, digits and underscores stripped, truncated
to 20 characters, joined by `_` to the latitude and longitude rounded to 3
decimal places. -/
theorem c3_dedup_key_amended (b : Business) :
    b.dedup_key = amendedDedupKey b := rfl

/-! #### Idempotence of the deduplicator (C8) -/

/-- Invariant of the `seen` map: every entry is keyed by its own record's
dedup key, and the keys are pairwise distinct. -/
def DedupInv (es : List (String × Business)) : Prop :=
  (∀ p ∈ es, p.1 = p.2.dedup_key) ∧ (es.map Prod.fst).Nodup

theorem dedupStep_map_fst (es : List (String × Business)) (b : Business)
    (ex : Business) (hl : alookup es b.dedup_key = some ex) :
    (dedupStep es b).map Prod.fst = es.map Prod.fst := by
  simp only [dedupStep, hl]
  split
  · exact aupdate_map_fst _ _ _
  · split
    · exact aupdate_map_fst _ _ _
    · rfl

theorem dedupStep_inv (es : List (String × Business)) (b : Business)
    (h : DedupInv es) : DedupInv (dedupStep es b) := by
  obtain ⟨hkey, hnd⟩ := h
  rcases hl : alookup es b.dedup_key with _ | ex
  · constructor
    · intro p hp
      simp only [dedupStep, hl] at hp
      rcases List.mem_append.mp hp with h1 | h1
      · exact hkey p h1
      · simp only [List.mem_singleton] at h1
        rw [h1]
    · simp only [dedupStep, hl, List.map_append, List.map_cons, List.map_nil]
      have hni : b.dedup_key ∉ es.map Prod.fst := (alookup_eq_none_iff _ _).mp hl
      rw [List.nodup_append]
      refine ⟨hnd, List.nodup_singleton _, ?_⟩
      intro a ha hb
      simp only [List.mem_singleton] at hb
      rw [hb] at ha
      exact hni ha
  · constructor
    · intro p hp
      rcases mem_dedupStep _ _ _ hp with h1 | h1
      · exact hkey p h1
      · rw [h1]
    · rw [dedupStep_map_fst _ _ _ hl]
      exact hnd

theorem dedupFold_inv (bs : List Business) :
    DedupInv (bs.foldl dedupStep []) := by
  suffices h : ∀ acc, DedupInv acc → DedupInv (bs.foldl dedupStep acc) from
    h [] ⟨by simp, by simp⟩
  induction bs with
  | nil => intro acc h; exact h
  | cons b rest ih =>
      intro acc h
      exact ih _ (dedupStep_inv _ _ h)

/-- Folding records whose dedup keys are all fresh simply appends them. -/
theorem foldl_dedupStep_fresh (es : List (String × Business)) :
    ∀ acc : List (String × Business),
      (∀ p ∈ es, p.1 = p.2.dedup_key) →
      (acc.map Prod.fst ++ es.map Prod.fst).Nodup →
      (es.map Prod.snd).foldl dedupStep acc = acc ++ es := by
  induction es with
  | nil => intro acc _ _; simp
  | cons p rest ih =>
      obtain ⟨k, b⟩ := p
      intro acc hkey hnd
      have hk : k = b.dedup_key := hkey (k, b) (List.mem_cons_self _ _)
      have hnotin : b.dedup_key ∉ acc.map Prod.fst := by
        rw [← hk]
        intro hmem
        obtain ⟨-, -, hdisj⟩ := List.nodup_append.mp (by simpa using hnd)
        exact hdisj hmem (List.mem_cons_self _ _)
      have hl : alookup acc b.dedup_key = none :=
        (alookup_eq_none_iff _ _).mpr hnotin
      have hstep : dedupStep acc b = acc ++ [(b.dedup_key, b)] := by
        simp only [dedupStep, hl]
      simp only [List.map_cons, List.foldl_cons]
      rw [hstep, ← hk]
      have hrest := ih (acc ++ [(k, b)])
        (fun q hq => hkey q (List.mem_cons_of_mem _ hq))
        (by simpa [List.append_assoc] using hnd)
      rw [hrest, List.append_assoc]
      rfl

/-- C8: `deduplicate_businesses` is idempotent — applying it to its own
output returns that output unchanged, same records in the same order. -/
theorem c8_deduplicate_idempotent (bs : List Business) :
    deduplicate_businesses (deduplicate_businesses bs) = deduplicate_businesses bs := by
  obtain ⟨hkey, hnd⟩ := dedupFold_inv bs
  show ((((bs.foldl dedupStep []).map Prod.snd).foldl dedupStep []).map Prod.snd) = _
  rw [foldl_dedupStep_fresh (bs.foldl dedupStep []) [] hkey (by simpa using hnd)]
  rfl

/-! ### Proxy rotation (`ProxyRotator` in `src/final_scraper.py`) -/

/-- State of `ProxyRotator`: the proxy list, the rotating index `current`,
and the sticky `failed` set (modelled as a list of strings). -/
structure ProxyRotator where
  proxies : List String
  current : ℕ := 0
  failed : List String := []
deriving Repr, DecidableEq

/-- The `while attempts < len(self.proxies)` loop of `get_next`: probe at
most `fuel` consecutive positions starting at `cur % len`; `current`
advances on every probe, including the one that returns. -/
def getNextAux (ps : List String) (failed : List String) :
    ℕ → ℕ → Option String × ℕ
  | cur, 0 => (none, cur)
  | cur, fuel + 1 =>
      let p := ps.getD (cur % ps.length) ""
      if p ∈ failed then getNextAux ps failed (cur + 1) fuel
      else (some p, cur + 1)

/-- The method `ProxyRotator.get_next`: `None` on an empty list, otherwise the loop
with `len(self.proxies)` as the attempt bound. -/
def ProxyRotator.get_next (r : ProxyRotator) : Option String × ProxyRotator :=
  if r.proxies = [] then (none, r)
  else
    let out := getNextAux r.proxies r.failed r.current r.proxies.length
    (out.1, { r with current := out.2 })

/-- The method `ProxyRotator.mark_failed`: add the proxy to the sticky
failed set. -/
def ProxyRotator.mark_failed (r : ProxyRotator) (p : String) : ProxyRotator :=
  { r with failed := if p ∈ r.failed then r.failed else r.failed ++ [p] }

theorem getNextAux_some (ps failed : List String) (hps : ps ≠ []) :
    ∀ (fuel cur : ℕ) (p : String) (cur' : ℕ),
      getNextAux ps failed cur fuel = (some p, cur') →
      p ∈ ps ∧ p ∉ failed := by
  intro fuel
  induction fuel with
  | zero => intro cur p cur' h; simp [getNextAux] at h
  | succ n ih =>
      intro cur p cur' h
      simp only [getNextAux] at h
      by_cases hf : ps.getD (cur % ps.length) "" ∈ failed
      · rw [if_pos hf] at h
        exact ih _ _ _ h
      · rw [if_neg hf] at h
        obtain ⟨hp, -⟩ := Prod.mk.injEq .. ▸ h
        have hlt : cur % ps.length < ps.length :=
          Nat.mod_lt _ (List.length_pos.mpr hps)
        have hmem : ps.getD (cur % ps.length) "" ∈ ps := by
          rw [List.getD_eq_getElem _ _ hlt]
          exact List.getElem_mem hlt
        cases hp
        exact ⟨hmem, hf⟩

theorem getNextAux_none (ps failed : List String) :
    ∀ (fuel cur cur' : ℕ),
      getNextAux ps failed cur fuel = (none, cur') →
      ∀ i, i < fuel → ps.getD ((cur + i) % ps.length) "" ∈ failed := by
  intro fuel
  induction fuel with
  | zero => intro cur cur' _ i hi; omega
  | succ n ih =>
      intro cur cur' h i hi
      simp only [getNextAux] at h
      by_cases hf : ps.getD (cur % ps.length) "" ∈ failed
      · rw [if_pos hf] at h
        match i with
        | 0 => simpa using hf
        | j + 1 =>
            have := ih (cur + 1) cur' h j (by omega)
            have harith : cur + 1 + j = cur + (j + 1) := by omega
            rwa [harith] at this
      · rw [if_neg hf] at h
        exact absurd h (by simp)

theorem getNextAux_all_failed (ps failed : List String) (hps : ps ≠ [])
    (h : ∀ p ∈ ps, p ∈ failed) :
    ∀ (fuel cur : ℕ), (getNextAux ps failed cur fuel).1 = none := by
  intro fuel
  induction fuel with
  | zero => intro cur; rfl
  | succ n ih =>
      intro cur
      have hlt : cur % ps.length < ps.length :=
        Nat.mod_lt _ (List.length_pos.mpr hps)
      have hmem : ps.getD (cur % ps.length) "" ∈ ps := by
        rw [List.getD_eq_getElem _ _ hlt]
        exact List.getElem_mem hlt
      simp only [getNextAux, if_pos (h _ hmem)]
      exact ih _

/-- The probe window of length `len` starting anywhere covers every index. -/
theorem exists_window_index (len cur j : ℕ) (hlen : 0 < len) (hj : j < len) :
    ∃ i, i < len ∧ (cur + i) % len = j := by
  refine ⟨(j + len - cur % len) % len, Nat.mod_lt _ hlen, ?_⟩
  have hc : cur % len < len := Nat.mod_lt _ hlen
  have h1 : (cur + (j + len - cur % len) % len) % len
      = (cur + (j + len - cur % len)) % len := Nat.add_mod_mod ..
  have h2 : (cur + (j + len - cur % len)) % len
      = (cur % len + (j + len - cur % len)) % len := Nat.mod_add_mod .. ▸ rfl
  have h3 : cur % len + (j + len - cur % len) = j + len := by omega
  rw [h1, h2, h3, Nat.add_mod_right, Nat.mod_eq_of_lt hj]

/-- C4: `get_next` never returns a proxy in the failed set; it returns
`None` exactly when the proxy list is empty or every proxy is failed; and
in the concrete three-proxy scenario where entry 2 was marked failed after
a 429, consecutive calls starting at entry 2's turn skip it and return
entry 3, then entry 1. -/
theorem c4_proxy_rotator :
    (∀ (r : ProxyRotator) (p : String) (r' : ProxyRotator),
        r.get_next = (some p, r') → p ∈ r.proxies ∧ p ∉ r.failed)
    ∧ (∀ r : ProxyRotator,
        r.get_next.1 = none ↔ r.proxies = [] ∨ ∀ p ∈ r.proxies, p ∈ r.failed)
    ∧ (let r := ProxyRotator.mark_failed
         { proxies := ["p1", "p2", "p3"], current := 1, failed := [] } "p2"
       r.get_next.1 = some "p3" ∧ r.get_next.2.get_next.1 = some "p1") := by
  refine ⟨?_, ?_, by decide⟩
  · intro r p r' h
    by_cases hps : r.proxies = []
    · simp [ProxyRotator.get_next, hps] at h
    · simp only [ProxyRotator.get_next, if_neg hps] at h
      obtain ⟨h1, -⟩ := Prod.mk.injEq .. ▸ h
      rcases hout : getNextAux r.proxies r.failed r.current r.proxies.length
        with ⟨o, c⟩
      rw [hout] at h1
      cases h1
      exact getNextAux_some r.proxies r.failed hps _ _ _ _ hout
  · intro r
    by_cases hps : r.proxies = []
    · simp [ProxyRotator.get_next, hps]
    · simp only [ProxyRotator.get_next, if_neg hps]
      constructor
      · intro h
        right
        intro p hp
        rcases hout : getNextAux r.proxies r.failed r.current r.proxies.length
          with ⟨o, c⟩
        rw [hout] at h
        simp only at h
        cases h
        obtain ⟨j, hj, hjp⟩ := List.getElem_of_mem hp
        obtain ⟨i, hi, hij⟩ := exists_window_index r.proxies.length r.current j
          (List.length_pos.mpr hps) hj
        have := getNextAux_none r.proxies r.failed _ _ _ hout i hi
        rw [hij, List.getD_eq_getElem _ _ hj, hjp] at this
        exact this
      · intro h
        rcases h with h | h
        · exact absurd h hps
        · exact getNextAux_all_failed r.proxies r.failed hps h _ _

/-- Witness for C4 at a concrete rotator state: the returned proxy is a
known proxy and is not failed. -/
theorem c4_proxy_rotator_witness :
    "p3" ∈ ["p1", "p2", "p3"] ∧ "p3" ∉ ["p2"] :=
  c4_proxy_rotator.1 ⟨["p1", "p2", "p3"], 1, ["p2"]⟩ "p3"
    ⟨["p1", "p2", "p3"], 3, ["p2"]⟩ (by decide)

/-! ### Untyped payloads and the recursive extractor
(`BusinessSpider._extract` in `src/final_scraper.py`) -/

/-- Untyped JSON-like payload values fed to the extractors. -/
inductive JVal where
  | null
  | bool (b : Bool)
  | num (q : ℚ)
  | str (s : String)
  | arr (elems : List JVal)
  | obj (fields : List (String × JVal))
deriving Repr

/-- Python `dict.get(key)` on a payload object: first binding of the key. -/
def jget (fields : List (String × JVal)) (k : String) : Option JVal :=
  match fields with
  | [] => none
  | (k', v) :: rest => if k' = k then some v else jget rest k

/-- Python truthiness of a payload value. -/
def truthy : JVal → Bool
  | .null => false
  | .bool b => b
  | .num q => if q = 0 then false else true
  | .str s => if s = "" then false else true
  | .arr l => !l.isEmpty
  | .obj l => !l.isEmpty

/-- Python `a or b` where `a` and `b` are `dict.get` results (`None` or a
value): the first operand if truthy, otherwise the second. -/
def pyOrOpt (a b : Option JVal) : Option JVal :=
  match a with
  | some v => if truthy v then some v else b
  | none => b

/-- Truthiness of a `dict.get` result (`None` is falsy). -/
def optTruthy : Option JVal → Bool
  | some v => truthy v
  | none => false

/-- Python `float(x)` on a payload value.  Numeric-string parsing is
outside the embedding: strings are modelled as conversion failures, like
every other value that raises in `float`. -/
def pyFloat? : JVal → Option ℚ
  | .num q => some q
  | .bool b => some (if b then 1 else 0)
  | _ => none

/-- Python `int(x)`: truncation toward zero on a number. -/
def pyTrunc (q : ℚ) : ℤ := if 0 ≤ q then ⌊q⌋ else -⌊-q⌋

/-- Python `int(x)` on a payload value (failures as for `pyFloat?`). -/
def pyInt? : JVal → Option ℤ
  | .num q => some (pyTrunc q)
  | .bool b => some (if b then 1 else 0)
  | _ => none

/-- Rendering of a raw payload value inside an f-string
(`f"lat{lat}lng{lng}"`).  Numbers are rendered through `ratRepr`; the
containers are schematic — no claim depends on their text. -/
def jvalRepr : JVal → String
  | .num q => ratRepr q
  | .str s => s
  | .bool b => if b then "True" else "False"
  | .null => "None"
  | .arr _ => "list"
  | .obj _ => "dict"

/-- The `Place` dataclass of `src/final_scraper.py`.  Fields that the
constructor call converts (`float`, `int`) are typed; fields it assigns
straight from the payload keep the raw value. -/
structure Place where
  name : String
  address : JVal
  phone : JVal
  website : JVal
  rating : ℚ
  reviews : ℤ
  category : JVal
  lat : ℚ
  lng : ℚ
  place_id : JVal
  hours : JVal
deriving Repr

/-- The body of `search`'s dict case in `BusinessSpider._extract`: the
name guard (`if name and isinstance(name, str)`), the coordinate guard
(`if lat and lng`), and the `try`-guarded `Place(...)` construction
(`except: pass` becomes `none`). -/
def placeOfNode (fields : List (String × JVal)) (base_lat base_lng : ℚ) :
    Option Place :=
  match pyOrOpt (jget fields "title") (jget fields "name") with
  | some (.str s) =>
      if s = "" then none
      else
        let latV := pyOrOpt (jget fields "lat") (jget fields "latitude")
        let lngV := pyOrOpt (jget fields "lng") (jget fields "longitude")
        if optTruthy latV && optTruthy lngV then
          let latF := if optTruthy latV then pyFloat? (latV.getD .null)
                      else some base_lat
          let lngF := if optTruthy lngV then pyFloat? (lngV.getD .null)
                      else some base_lng
          let ratingV := let r := (jget fields "rating").getD (.num 0)
                         if truthy r then r else .num 0
          let reviewsV := let r := (jget fields "reviews").getD (.num 0)
                          if truthy r then r else .num 0
          match latF, lngF, pyFloat? ratingV, pyInt? reviewsV with
          | some la, some lg, some ra, some rv =>
              some {
                name := s
                address := (jget fields "address").getD (.str "")
                phone := (jget fields "phone").getD (.str "")
                website := (jget fields "website").getD (.str "")
                rating := ra
                reviews := rv
                category := (jget fields "category").getD (.str "")
                lat := la
                lng := lg
                place_id :=
                  let pid := (jget fields "placeId").getD (.str "")
                  if truthy pid then pid
                  else .str ("lat" ++ jvalRepr (latV.getD .null) ++
                             "lng" ++ jvalRepr (lngV.getD .null))
                hours := (jget fields "hours").getD (.obj []) }
          | _, _, _, _ => none
        else none
  | _ => none

/-- The recursive `search(obj, depth)` of `BusinessSpider._extract`, with
the increasing depth counter replaced by the remaining budget
`fuel = 16 - depth`: the Python guard `if depth > 15 ... return` is the
`fuel = 0` case.  The node's own match is emitted before the children's,
and children are visited whether or not the node matched, exactly as in
the source.  The model is total by construction, which mirrors the
guaranteed termination of the bounded-depth Python recursion. -/
def bsSearch (base_lat base_lng : ℚ) : ℕ → JVal → List Place
  | 0, _ => []
  | fuel + 1, v =>
      match v with
      | .obj fields =>
          (match placeOfNode fields base_lat base_lng with
           | some p => [p]
           | none => []) ++
          fields.flatMap (fun kv => bsSearch base_lat base_lng fuel kv.2)
      | .arr items => items.flatMap (bsSearch base_lat base_lng fuel)
      | _ => []

/-- The call `search(obj, depth)` at Python depth `d`. -/
def bsSearchAt (base_lat base_lng : ℚ) (d : ℕ) (v : JVal) : List Place :=
  bsSearch base_lat base_lng (16 - d) v

/-- The method `BusinessSpider._extract`: run `search(data, 0)` and return the
collected places. -/
def bsExtract (base_lat base_lng : ℚ) (data : JVal) : List Place :=
  bsSearchAt base_lat base_lng 0 data

/-! ### The structured OSM parser (`OSMScraper._parse` in
`src/scraper_v2.py`) -/

/-- The `Place` dataclass of `src/scraper_v2.py`. -/
structure OSMPlace where
  name : String
  address : String
  phone : String
  website : String
  category : String
  lat : ℚ
  lng : ℚ
  place_id : String
deriving Repr, DecidableEq

/-- One element of an Overpass response as consumed by `_parse`: the tag
map, the optional top-level coordinates (`element.get("lat", base_lat)`
is a lookup with default), and the element id rendered as a string. -/
structure OSMElement where
  tags : List (String × String)
  lat : Option ℚ := none
  lon : Option ℚ := none
  id : String := ""
deriving Repr

/-- Tag lookup (`tags.get(key)`). -/
def sget (tags : List (String × String)) (k : String) : Option String :=
  match tags with
  | [] => none
  | (k', v) :: rest => if k' = k then some v else sget rest k

/-- Python `a or b` for `tags.get` results with a string fallback. -/
def pyOrStr (a : Option String) (b : String) : String :=
  match a with
  | some s => if s = "" then b else s
  | none => b

/-- The record built for one element inside `_parse` (the element has
already passed the empty-name / seen-name skip). -/
def osmBuild (e : OSMElement) (base_lat base_lng : ℚ) : OSMPlace :=
  let name := ((sget e.tags "name").getD "").trim
  let street :=
    match sget e.tags "addr:street" with
    | some st =>
        if st = "" then []
        else [st ++ (match sget e.tags "addr:housenumber" with
                     | some hn => if hn = "" then "" else " " ++ hn
                     | none => "")]
    | none => []
  let postcode :=
    match sget e.tags "addr:postcode" with
    | some pc => if pc = "" then [] else [pc]
    | none => []
  let city :=
    match sget e.tags "addr:city" with
    | some ct => if ct = "" then [] else [ct]
    | none => []
  let address := String.intercalate ", " (street ++ postcode ++ city)
  let category := pyOrStr (sget e.tags "amenity")
    (pyOrStr (sget e.tags "shop") "business")
  let lat := e.lat.getD base_lat
  let lng := e.lon.getD base_lng
  { name := name
    address := address
    phone := (sget e.tags "phone").getD ""
    website := (sget e.tags "website").getD ""
    category := category
    lat := if lat = 0 then base_lat else lat
    lng := if lng = 0 then base_lng else lng
    place_id := "osm_" ++ e.id }

/-- The element loop of `OSMScraper._parse`: skip empty or already-seen
names (first seen wins), otherwise emit the built record. -/
def parseOSMAux (base_lat base_lng : ℚ) :
    List OSMElement → List String → List OSMPlace
  | [], _ => []
  | e :: rest, seen =>
      let name := ((sget e.tags "name").getD "").trim
      if name = "" ∨ name ∈ seen then parseOSMAux base_lat base_lng rest seen
      else osmBuild e base_lat base_lng ::
        parseOSMAux base_lat base_lng rest (name :: seen)

/-- The method `OSMScraper._parse` over the `elements` array of the
payload. -/
def parseOSM (elements : List OSMElement) (base_lat base_lng : ℚ) :
    List OSMPlace :=
  parseOSMAux base_lat base_lng elements []

/-! ### Retry and backoff in `BusinessSpider.search`
(`src/final_scraper.py`) -/

/-- Observable trace of one `search` call: the returned records, the
number of `_request` attempts issued, and the backoff delays slept (in
seconds, in order). -/
structure SearchTrace where
  result : List Place
  attempts : ℕ
  delays : List ℕ
deriving Repr

/-- The `for attempt in range(3)` loop of `BusinessSpider.search`, with
the network abstracted as an oracle `req` from the attempt index to
`_request`'s outcome (`none` is a failed attempt).  A failed attempt `k`
sleeps `2 ** attempt` before the next iteration — also after the last
one, as in the source. -/
def searchLoop (req : ℕ → Option (List Place)) :
    List ℕ → ℕ → List ℕ → SearchTrace
  | [], n, ds => ⟨[], n, ds⟩
  | k :: rest, n, ds =>
      match req k with
      | some r => ⟨r, n + 1, ds⟩
      | none => searchLoop req rest (n + 1) (ds ++ [2 ^ k])

/-- One full `search` call. -/
def searchRun (req : ℕ → Option (List Place)) : SearchTrace :=
  searchLoop req (List.range 3) 0 []

/-! ### C5 / C6 / C7 / C10 theorems -/

/-- C5: `search` makes at most 3 request attempts, the delay after the
`k`-th failed attempt is `2 ^ k` seconds, and when all attempts fail the
call returns the empty record list. -/
theorem c5_retry_backoff (req : ℕ → Option (List Place)) :
    (searchRun req).attempts ≤ 3
    ∧ (searchRun req).delays
        = (List.range (searchRun req).delays.length).map (fun k => 2 ^ k)
    ∧ ((∀ k, k < 3 → req k = none) →
        (searchRun req).result = [] ∧ (searchRun req).attempts = 3
          ∧ (searchRun req).delays = [1, 2, 4]) := by
  have hr : List.range 3 = [0, 1, 2] := rfl
  rcases h0 : req 0 with _ | r0
  · rcases h1 : req 1 with _ | r1
    · rcases h2 : req 2 with _ | r2
      · refine ⟨?_, ?_, ?_⟩ <;>
          simp [searchRun, searchLoop, hr, h0, h1, h2, List.range_succ]
      · refine ⟨?_, ?_, ?_⟩
        · simp [searchRun, searchLoop, hr, h0, h1, h2]
        · simp [searchRun, searchLoop, hr, h0, h1, h2, List.range_succ]
        · intro hall
          exact absurd (hall 2 (by omega)) (by simp [h2])
    · refine ⟨?_, ?_, ?_⟩
      · simp [searchRun, searchLoop, hr, h0, h1]
      · simp [searchRun, searchLoop, hr, h0, h1, List.range_succ]
      · intro hall
        exact absurd (hall 1 (by omega)) (by simp [h1])
  · refine ⟨?_, ?_, ?_⟩
    · simp [searchRun, searchLoop, hr, h0]
    · simp [searchRun, searchLoop, hr, h0]
    · intro hall
      exact absurd (hall 0 (by omega)) (by simp [h0])

/-- Witness for C5: with every attempt failing, the call returns no
records after exactly 3 attempts with backoffs 1, 2, 4. -/
theorem c5_retry_backoff_witness :
    (searchRun fun _ => none).result = []
      ∧ (searchRun fun _ => none).attempts = 3
      ∧ (searchRun fun _ => none).delays = [1, 2, 4] :=
  (c5_retry_backoff fun _ => none).2.2 (fun _ _ => rfl)

/-- If either coordinate expression of a dict node is falsy, the node
produces no record (the guard `if lat and lng` fails). -/
theorem placeOfNode_none_of_falsy (fields : List (String × JVal))
    (blat blng : ℚ)
    (h : optTruthy (pyOrOpt (jget fields "lat") (jget fields "latitude")) = false ∨
         optTruthy (pyOrOpt (jget fields "lng") (jget fields "longitude")) = false) :
    placeOfNode fields blat blng = none := by
  rcases hn : pyOrOpt (jget fields "title") (jget fields "name") with _ | v
  · simp [placeOfNode, hn]
  · rcases v with _ | b | q | s | l | l <;> simp [placeOfNode, hn]
    by_cases hs : s = ""
    · simp [hs]
    · rcases h with h | h <;> simp [hs, h]

/-- C10: a dict node whose `lat` (or `lng`) value is falsy — the number 0
included — produces no record even with a non-empty name and both
coordinate keys present; and whenever a record is produced, both
coordinate values were truthy, so the `base_lat`/`base_lng` fallback
branch of the constructor is unreachable. -/
theorem c10_zero_coordinate_dropped :
    (∀ (fields : List (String × JVal)) (blat blng : ℚ),
        optTruthy (pyOrOpt (jget fields "lat") (jget fields "latitude")) = false ∨
        optTruthy (pyOrOpt (jget fields "lng") (jget fields "longitude")) = false →
        placeOfNode fields blat blng = none)
    ∧ (∀ blat blng : ℚ,
        placeOfNode [("title", .str "Biz"), ("lat", .num 0), ("lng", .num 5)]
          blat blng = none)
    ∧ (∀ (fields : List (String × JVal)) (blat blng : ℚ) (p : Place),
        placeOfNode fields blat blng = some p →
        optTruthy (pyOrOpt (jget fields "lat") (jget fields "latitude")) = true ∧
        optTruthy (pyOrOpt (jget fields "lng") (jget fields "longitude")) = true) := by
  refine ⟨placeOfNode_none_of_falsy, fun blat blng => rfl, ?_⟩
  intro fields blat blng p h
  constructor
  · cases hb : optTruthy (pyOrOpt (jget fields "lat") (jget fields "latitude"))
    · rw [placeOfNode_none_of_falsy fields blat blng (Or.inl hb)] at h
      exact absurd h (by simp)
    · rfl
  · cases hb : optTruthy (pyOrOpt (jget fields "lng") (jget fields "longitude"))
    · rw [placeOfNode_none_of_falsy fields blat blng (Or.inr hb)] at h
      exact absurd h (by simp)
    · rfl

/-- Witness for C10 at a concrete node carrying `lat = 0`. -/
theorem c10_zero_coordinate_dropped_witness :
    placeOfNode [("title", .str "Biz"), ("lat", .num 0), ("lng", .num 5)] 7 8
      = none :=
  c10_zero_coordinate_dropped.2.1 7 8

/-- C6 counterexample: a node recognisable by name but carrying no
coordinate keys yields NO record from the recursive extractor — it is
skipped outright rather than given the sector's center. -/
theorem c6_sector_fallback_counterexample :
    bsExtract 1 2 (JVal.obj [("title", JVal.str "NoCoords")]) = [] := rfl

/-- C6 amended: the structured OSM parser falls back to the sector center
when an element carries no top-level coordinates, while the recursive
extractor produces no record at all for a node without coordinate keys. -/
theorem c6_sector_fallback_amended :
    (∀ (e : OSMElement) (blat blng : ℚ), e.lat = none → e.lon = none →
        (osmBuild e blat blng).lat = blat ∧ (osmBuild e blat blng).lng = blng)
    ∧ (∀ (fields : List (String × JVal)) (blat blng : ℚ),
        jget fields "lat" = none → jget fields "latitude" = none →
        placeOfNode fields blat blng = none) := by
  constructor
  · intro e blat blng hlat hlon
    constructor <;> simp [osmBuild, hlat, hlon]
  · intro fields blat blng h1 h2
    apply placeOfNode_none_of_falsy
    left
    simp [pyOrOpt, h1, h2, optTruthy]

/-- Witness for C6 (amended) at a concrete coordinate-free element. -/
theorem c6_sector_fallback_amended_witness :
    (osmBuild ⟨[("name", "Bar")], none, none, "7"⟩ 5 6).lat = 5
      ∧ (osmBuild ⟨[("name", "Bar")], none, none, "7"⟩ 5 6).lng = 6 :=
  c6_sector_fallback_amended.1 ⟨[("name", "Bar")], none, none, "7"⟩ 5 6 rfl rfl

/-- Wrap a payload in `k` singleton lists. -/
def nestArr : ℕ → JVal → JVal
  | 0, v => v
  | k + 1, v => .arr [nestArr k v]

/-- A minimal place node recognised by the recursive extractor. -/
def samplePlaceNode : JVal :=
  .obj [("title", .str "Biz"), ("lat", .num 1), ("lng", .num 2)]

/-- The record the extractor builds from `samplePlaceNode`. -/
def samplePlace : Place :=
  { name := "Biz", address := .str "", phone := .str "", website := .str "",
    rating := 0, reviews := 0, category := .str "", lat := 1, lng := 2,
    place_id := .str ("lat" ++ ratRepr 1 ++ "lng" ++ ratRepr 2),
    hours := .obj [] }

/-- Unwrapping `k ≤ fuel` singleton-list layers consumes `k` units of
budget. -/
theorem bsSearch_nestArr_unwrap (blat blng : ℚ) :
    ∀ (k fuel : ℕ) (v : JVal), k ≤ fuel →
      bsSearch blat blng fuel (nestArr k v) = bsSearch blat blng (fuel - k) v := by
  intro k
  induction k with
  | zero => intro fuel v _; simp [nestArr]
  | succ n ih =>
      intro fuel v hk
      obtain ⟨f, rfl⟩ : ∃ f, fuel = f + 1 := ⟨fuel - 1, by omega⟩
      show bsSearch blat blng (f + 1) (.arr [nestArr n v]) = _
      simp only [bsSearch, List.flatMap_cons, List.flatMap_nil, List.append_nil]
      rw [ih f v (by omega), show f + 1 - (n + 1) = f - n from by omega]

/-- A payload wrapped deeper than the whole budget yields nothing. -/
theorem bsSearch_nestArr_deep (blat blng : ℚ) :
    ∀ (fuel k : ℕ) (v : JVal), fuel ≤ k →
      bsSearch blat blng fuel (nestArr k v) = [] := by
  intro fuel
  induction fuel with
  | zero => intro k v _; rfl
  | succ n ih =>
      intro k v hk
      obtain ⟨m, rfl⟩ : ∃ m, k = m + 1 := ⟨k - 1, by omega⟩
      show bsSearch blat blng (n + 1) (.arr [nestArr m v]) = []
      simp only [bsSearch, List.flatMap_cons, List.flatMap_nil, List.append_nil]
      exact ih m v (by omega)

/-- C7: the traversal never examines a node past depth 15 — a call at
depth `d > 15` yields nothing from the whole subtree — and on a payload
nested 20 levels deep it terminates with no output, while the same node
at depth 15 is still extracted.  (Termination on every payload holds by
construction: `bsSearch` is structurally recursive.) -/
theorem c7_depth_bound :
    (∀ (blat blng : ℚ) (d : ℕ) (v : JVal), 15 < d →
        bsSearchAt blat blng d v = [])
    ∧ (∀ blat blng : ℚ, bsExtract blat blng (nestArr 20 samplePlaceNode) = [])
    ∧ (∀ blat blng : ℚ,
        bsExtract blat blng (nestArr 15 samplePlaceNode) = [samplePlace]) := by
  refine ⟨?_, ?_, ?_⟩
  · intro blat blng d v hd
    show bsSearch blat blng (16 - d) v = []
    rw [show 16 - d = 0 from by omega]
    rfl
  · intro blat blng
    exact bsSearch_nestArr_deep blat blng 16 20 samplePlaceNode (by omega)
  · intro blat blng
    show bsSearch blat blng 16 (nestArr 15 samplePlaceNode) = [samplePlace]
    rw [bsSearch_nestArr_unwrap blat blng 15 16 samplePlaceNode (by omega)]
    rfl

/-- Witness for C7: a call at depth 16 sees nothing. -/
theorem c7_depth_bound_witness :
    bsSearchAt 0 0 16 samplePlaceNode = [] :=
  c7_depth_bound.1 0 0 16 samplePlaceNode (by omega)

/-! ### The geographic grid (`src/src/grid.py`) -/

/-- Supported countries (keys of `GeoGrid.COUNTRIES`). -/
inductive Country where
  | Spain
  | France
  | Mexico
deriving Repr, DecidableEq

/-- Bound `COUNTRIES[c]["min_lat"]`. -/
def min_lat : Country → ℚ
  | .Spain => 27.0
  | .France => 41.3
  | .Mexico => 14.5

/-- Bound `COUNTRIES[c]["max_lat"]`. -/
def max_lat : Country → ℚ
  | .Spain => 44.5
  | .France => 51.1
  | .Mexico => 32.7

/-- Bound `COUNTRIES[c]["min_lng"]`. -/
def min_lng : Country → ℚ
  | .Spain => -18.5
  | .France => -5.5
  | .Mexico => -118.4

/-- Bound `COUNTRIES[c]["max_lng"]`. -/
def max_lng : Country → ℚ
  | .Spain => 5.0
  | .France => 9.6
  | .Mexico => -86.0

/-- The `Sector` dataclass of `src/src/grid.py`. -/
structure Sector where
  id : String
  lat : ℚ
  lng : ℚ
  lat_min : ℚ
  lat_max : ℚ
  lng_min : ℚ
  lng_max : ℚ
  is_land : Bool := true
deriving Repr, DecidableEq

/-- Decimal rendering of a natural number (the f-string `f"{i}"`):
most-significant digit first. -/
def natStr (n : ℕ) : String :=
  if n = 0 then "0"
  else (((Nat.digits 10 n).reverse).map Nat.digitChar).asString

/-- The sector built for cell `(i, j)` of the grid: id `f"{i}_{j}"`,
cell bounds, and the cell midpoint as the center. -/
def mkSector (c : Country) (n : ℕ) (i j : ℕ) : Sector :=
  let lat_step := (max_lat c - min_lat c) / n
  let lng_step := (max_lng c - min_lng c) / n
  { id := natStr i ++ "_" ++ natStr j
    lat := min_lat c + i * lat_step + lat_step / 2
    lng := min_lng c + j * lng_step + lng_step / 2
    lat_min := min_lat c + i * lat_step
    lat_max := min_lat c + (i + 1) * lat_step
    lng_min := min_lng c + j * lng_step
    lng_max := min_lng c + (j + 1) * lng_step }

/-- The method `GeoGrid.generate`: the nested `for i / for j` loops,
row-major.
(In Python `grid_size = 0` raises `ZeroDivisionError` computing the
steps, so the theorems assume a positive grid size.) -/
def generate (c : Country) (n : ℕ) : List Sector :=
  (List.range n).flatMap fun i => (List.range n).map fun j => mkSector c n i j

/-- The method `GeoGrid._is_land`: the hand-tuned land/water classifier.
A pure
predicate on the sector's center; it never reads `is_land`. -/
def is_land (c : Country) (s : Sector) : Bool :=
  let lat := s.lat
  let lng := s.lng
  match c with
  | .Spain =>
      if 27.5 ≤ lat ∧ lat ≤ 29.5 ∧ -18.5 ≤ lng ∧ lng ≤ -13.0 then
        if lng < -18.0 ∧ 28.5 < lat then false
        else if -13.0 < lng ∧ lat < 28.0 then false
        else true
      else if 38.5 ≤ lat ∧ lat ≤ 40.0 ∧ 1.0 ≤ lng ∧ lng ≤ 4.0 then true
      else if lng < -9.5 then false
      else if 3.0 < lng then false
      else if 43.2 < lat then false
      else if lat < 36.0 then false
      else if 42.8 < lat ∧ lng < -1.5 then false
      else if 42.5 < lat ∧ 3.0 < lng then false
      else if lat < 36.5 ∧ -5.5 < lng then false
      else if 0.3 < lng ∧ lat < 42.0 then false
      else if 1.5 < lng then false
      else if lng < -9.0 then false
      else if ¬(36.2 ≤ lat ∧ lat ≤ 43.3 ∧ -9.3 ≤ lng ∧ lng ≤ 3.0) then false
      else true
  | _ =>
      if min_lat c ≤ lat ∧ lat ≤ max_lat c ∧ min_lng c ≤ lng ∧ lng ≤ max_lng c
      then true else false

/-- The method `GeoGrid.filter_water_sectors`: classify each sector,
set its
`is_land` flag, and keep the land ones in order. -/
def filter_water_sectors (c : Country) : List Sector → List Sector
  | [] => []
  | s :: rest =>
      if is_land c s then
        { s with is_land := true } :: filter_water_sectors c rest
      else
        filter_water_sectors c rest

/-! ### C9 theorem -/

/-- Every sector kept by `filter_water_sectors` has its flag set and is
classified as land. -/
theorem mem_filter_water_sectors (c : Country) :
    ∀ (ss : List Sector) (s : Sector), s ∈ filter_water_sectors c ss →
      s.is_land = true ∧ is_land c s = true := by
  intro ss
  induction ss with
  | nil => intro s h; simp [filter_water_sectors] at h
  | cons hd tl ih =>
      intro s h
      by_cases hl : is_land c hd
      · simp only [filter_water_sectors, if_pos hl] at h
        rcases List.mem_cons.mp h with h1 | h1
        · subst h1
          exact ⟨rfl, hl⟩
        · exact ih s h1
      · simp only [filter_water_sectors, if_neg hl] at h
        exact ih s h

/-- C9: on sectors whose flag is already set (as `generate` produces
them), `filter_water_sectors` is exactly the pure keep-land filter, and it
is idempotent on every input. -/
theorem c9_filter_land :
    (∀ (c : Country) (ss : List Sector), (∀ s ∈ ss, s.is_land = true) →
        filter_water_sectors c ss = ss.filter fun s => is_land c s)
    ∧ (∀ (c : Country) (ss : List Sector),
        filter_water_sectors c (filter_water_sectors c ss)
          = filter_water_sectors c ss) := by
  have hfilter : ∀ (c : Country) (ss : List Sector),
      (∀ s ∈ ss, s.is_land = true) →
      filter_water_sectors c ss = ss.filter fun s => is_land c s := by
    intro c ss
    induction ss with
    | nil => intro _; rfl
    | cons hd tl ih =>
        intro hall
        have hhd : hd.is_land = true := hall hd (List.mem_cons_self _ _)
        have htl : ∀ s ∈ tl, s.is_land = true :=
          fun s hs => hall s (List.mem_cons_of_mem _ hs)
        by_cases hl : is_land c hd
        · have hset : ({ hd with is_land := true } : Sector) = hd := by
            cases hd
            simp_all
          simp only [filter_water_sectors, if_pos hl, hset, ih htl,
            List.filter_cons_of_pos hl]
        · simp only [filter_water_sectors, if_neg hl, ih htl,
            List.filter_cons_of_neg (by simpa using hl)]
  refine ⟨hfilter, ?_⟩
  intro c ss
  have hall : ∀ s ∈ filter_water_sectors c ss, s.is_land = true :=
    fun s hs => (mem_filter_water_sectors c ss s hs).1
  rw [hfilter c _ hall]
  apply List.filter_eq_self.mpr
  intro s hs
  exact (mem_filter_water_sectors c ss s hs).2

/-- A concrete inland sector with its flag set. -/
def madridSector : Sector :=
  { id := "0_0", lat := 40, lng := -4, lat_min := 36, lat_max := 43,
    lng_min := -9, lng_max := 3 }

/-- Witness for C9 on a one-sector list whose flag is set. -/
theorem c9_filter_land_witness :
    filter_water_sectors .Spain [madridSector]
      = [madridSector].filter fun s => is_land .Spain s :=
  c9_filter_land.1 .Spain [madridSector]
    (fun s hs => by rw [List.mem_singleton.mp hs]; rfl)

/-! ### C1: uniqueness of sector ids and grid shape -/

theorem digitChar_isDigit_of_lt (d : ℕ) (hd : d < 10) :
    (Nat.digitChar d).isDigit = true := by
  have h : ∀ p : Fin 10, (Nat.digitChar p.val).isDigit = true := by decide
  exact h ⟨d, hd⟩

theorem digitChar_inj_of_lt (a b : ℕ) (ha : a < 10) (hb : b < 10)
    (h : Nat.digitChar a = Nat.digitChar b) : a = b := by
  have hfin : ∀ p q : Fin 10,
      Nat.digitChar p.val = Nat.digitChar q.val → p = q := by decide
  exact congrArg Fin.val (hfin ⟨a, ha⟩ ⟨b, hb⟩ h)

theorem map_digitChar_inj :
    ∀ (l1 l2 : List ℕ), (∀ d ∈ l1, d < 10) → (∀ d ∈ l2, d < 10) →
      l1.map Nat.digitChar = l2.map Nat.digitChar → l1 = l2 := by
  intro l1
  induction l1 with
  | nil =>
      intro l2 _ _ h
      cases l2 with
      | nil => rfl
      | cons b t => simp at h
  | cons a t ih =>
      intro l2 h1 h2 h
      cases l2 with
      | nil => simp at h
      | cons b t2 =>
          simp only [List.map_cons, List.cons.injEq] at h
          have hab : a = b :=
            digitChar_inj_of_lt a b (h1 a (List.mem_cons_self _ _))
              (h2 b (List.mem_cons_self _ _)) h.1
          rw [hab, ih t2 (fun d hd => h1 d (List.mem_cons_of_mem _ hd))
            (fun d hd => h2 d (List.mem_cons_of_mem _ hd)) h.2]

theorem natStr_chars_isDigit (n : ℕ) :
    ∀ c ∈ (natStr n).data, c.isDigit = true := by
  intro c hc
  by_cases h : n = 0
  · simp only [natStr, if_pos h] at hc
    simp only [show ("0" : String).data = ['0'] from rfl,
      List.mem_singleton] at hc
    rw [hc]
    rfl
  · simp only [natStr, if_neg h, List.asString] at hc
    obtain ⟨d, hd, rfl⟩ := List.mem_map.mp hc
    exact digitChar_isDigit_of_lt d
      (Nat.digits_lt_base (by norm_num) (List.mem_reverse.mp hd))

theorem natStr_inj (m n : ℕ) (h : natStr m = natStr n) : m = n := by
  have hdata := congrArg String.data h
  have key : ∀ k : ℕ, k ≠ 0 →
      (natStr k).data = ((Nat.digits 10 k).reverse).map Nat.digitChar := by
    intro k hk
    simp [natStr, if_neg hk, List.asString]
  have hzero : ∀ k : ℕ, k ≠ 0 → (natStr k).data ≠ (natStr 0).data := by
    intro k hk hcon
    rw [key k hk, show (natStr 0).data = List.map Nat.digitChar [0] from rfl]
      at hcon
    have hrev : (Nat.digits 10 k).reverse = [0] :=
      map_digitChar_inj _ _
        (fun d hd => Nat.digits_lt_base (by norm_num) (List.mem_reverse.mp hd))
        (by intro d hd; simp only [List.mem_singleton] at hd; omega) hcon
    have hdig : Nat.digits 10 k = [0] := by
      have := congrArg List.reverse hrev
      simpa using this
    have hk0 : k = 0 := by
      have hk' := Nat.ofDigits_digits 10 k
      rw [hdig] at hk'
      simpa [Nat.ofDigits] using hk'.symm
    exact hk hk0
  by_cases hm : m = 0
  · by_cases hn : n = 0
    · rw [hm, hn]
    · exact absurd (by rw [← hdata, hm]) (hzero n hn)
  · by_cases hn : n = 0
    · exact absurd (by rw [hdata, hn]) (hzero m hm)
    · have h' : ((Nat.digits 10 m).reverse).map Nat.digitChar
          = ((Nat.digits 10 n).reverse).map Nat.digitChar := by
        rw [← key m hm, ← key n hn, hdata]
      have hrev : (Nat.digits 10 m).reverse = (Nat.digits 10 n).reverse :=
        map_digitChar_inj _ _
          (fun d hd => Nat.digits_lt_base (by norm_num) (List.mem_reverse.mp hd))
          (fun d hd => Nat.digits_lt_base (by norm_num) (List.mem_reverse.mp hd))
          h'
      have hdig : Nat.digits 10 m = Nat.digits 10 n :=
        List.reverse_injective hrev
      calc m = Nat.ofDigits 10 (Nat.digits 10 m) := (Nat.ofDigits_digits 10 m).symm
        _ = Nat.ofDigits 10 (Nat.digits 10 n) := by rw [hdig]
        _ = n := Nat.ofDigits_digits 10 n

/-- Splitting a string made of digits, then the separator, is unambiguous. -/
theorem sep_split :
    ∀ (as : List Char) (bs : List Char) (as' bs' : List Char),
      (∀ c ∈ as, c.isDigit = true) → (∀ c ∈ as', c.isDigit = true) →
      as ++ '_' :: bs = as' ++ '_' :: bs' → as = as' ∧ bs = bs' := by
  intro as
  induction as with
  | nil =>
      intro bs as' bs' _ h2 h
      cases as' with
      | nil => simpa using h
      | cons a t =>
          simp only [List.nil_append, List.cons_append, List.cons.injEq] at h
          have := h2 a (List.mem_cons_self _ _)
          rw [← h.1] at this
          exact absurd this (by decide)
  | cons a t ih =>
      intro bs as' bs' h1 h2 h
      cases as' with
      | nil =>
          simp only [List.cons_append, List.nil_append, List.cons.injEq] at h
          have := h1 a (List.mem_cons_self _ _)
          rw [h.1] at this
          exact absurd this (by decide)
      | cons b t2 =>
          simp only [List.cons_append, List.cons.injEq] at h
          obtain ⟨h3, h4⟩ := ih bs t2 bs'
            (fun c hc => h1 c (List.mem_cons_of_mem _ hc))
            (fun c hc => h2 c (List.mem_cons_of_mem _ hc)) h.2
          exact ⟨by rw [h.1, h3], h4⟩

/-- The id `f"{i}_{j}"` determines `(i, j)`. -/
theorem sectorId_inj (i j i' j' : ℕ)
    (h : natStr i ++ "_" ++ natStr j = natStr i' ++ "_" ++ natStr j') :
    i = i' ∧ j = j' := by
  have hdata := congrArg String.data h
  simp only [String.data_append, List.append_assoc,
    show ("_" : String).data = ['_'] from rfl, List.singleton_append] at hdata
  obtain ⟨h1, h2⟩ := sep_split (natStr i).data (natStr j).data
    (natStr i').data (natStr j').data
    (natStr_chars_isDigit i) (natStr_chars_isDigit i') hdata
  constructor
  · exact natStr_inj i i' (by
      have : (⟨(natStr i).data⟩ : String) = ⟨(natStr i').data⟩ := by rw [h1]
      simpa using this)
  · exact natStr_inj j j' (by
      have : (⟨(natStr j).data⟩ : String) = ⟨(natStr j').data⟩ := by rw [h2]
      simpa using this)

/-- Indexing a `flatMap` whose inner lists all have length `n`. -/
theorem flatMap_getElem_rowmajor {α : Type} (g : ℕ → List α) (n : ℕ)
    (hg : ∀ i, (g i).length = n) :
    ∀ (is : List ℕ) (r j : ℕ) (hr : r < is.length), j < n →
      (is.flatMap g)[r * n + j]? = (g (is.get ⟨r, hr⟩))[j]? := by
  intro is
  induction is with
  | nil => intro r j hr _; simp at hr
  | cons i t ih =>
      intro r j hr hj
      match r with
      | 0 =>
          simp only [List.flatMap_cons, Nat.zero_mul, Nat.zero_add]
          rw [List.getElem?_append]
          rw [if_pos (by rw [hg i]; exact hj)]
          rfl
      | r' + 1 =>
          simp only [List.flatMap_cons]
          rw [List.getElem?_append_right (by rw [hg i]; nlinarith)]
          have harith : (r' + 1) * n + j - (g i).length = r' * n + j := by
            rw [hg i]
            ring_nf
            omega
          rw [harith]
          exact ih r' j (by simpa using hr) hj

/-- C1: for every supported country and positive grid size `n`,
`generate` returns exactly `n²` sectors; the sector of cell `(i, j)` sits
at row-major position `i·n + j` (and `generate` is a pure function of
`(c, n)`, hence deterministic); all sector ids are distinct; and every
sector's center is the midpoint of its cell and lies strictly inside the
country's bounding box. -/
theorem c1_generate_grid (c : Country) (n : ℕ) (hn : 0 < n) :
    (generate c n).length = n ^ 2
    ∧ (∀ i j : ℕ, i < n → j < n →
        (generate c n)[i * n + j]? = some (mkSector c n i j))
    ∧ ((generate c n).map Sector.id).Nodup
    ∧ (∀ s ∈ generate c n,
        s.lat = (s.lat_min + s.lat_max) / 2
        ∧ s.lng = (s.lng_min + s.lng_max) / 2
        ∧ min_lat c < s.lat ∧ s.lat < max_lat c
        ∧ min_lng c < s.lng ∧ s.lng < max_lng c) := by
  refine ⟨?_, ?_, ?_, ?_⟩
  · simp [generate, List.length_flatMap, Function.comp_def, List.map_const',
      List.sum_replicate, smul_eq_mul, pow_two]
  · intro i j hi hj
    have h := flatMap_getElem_rowmajor
      (fun i => (List.range n).map fun j => mkSector c n i j) n
      (fun i => by simp) (List.range n) i j (by simpa using hi) hj
    rw [generate, h, List.get_eq_getElem, List.getElem_range,
      List.getElem?_map, List.getElem?_range hj]
    rfl
  · have hmapeq : (generate c n).map Sector.id
        = ((List.range n) ×ˢ (List.range n)).map
            (fun p => natStr p.1 ++ "_" ++ natStr p.2) := by
      simp only [generate, SProd.sprod, List.product, List.map_flatMap,
        List.map_map]
      rfl
    rw [hmapeq]
    refine List.Nodup.map_on ?_
      ((List.nodup_range n).product (List.nodup_range n))
    intro p _ q _ hpq
    obtain ⟨h1, h2⟩ := sectorId_inj p.1 p.2 q.1 q.2 hpq
    exact Prod.ext h1 h2
  · intro s hs
    simp only [generate, List.mem_flatMap, List.mem_map, List.mem_range] at hs
    obtain ⟨i, hi, j, hj, rfl⟩ := hs
    have hn' : (0 : ℚ) < n := by exact_mod_cast hn
    have hbla : min_lat c < max_lat c := by cases c <;> norm_num [min_lat, max_lat]
    have hbln : min_lng c < max_lng c := by cases c <;> norm_num [min_lng, max_lng]
    have hstla : 0 < (max_lat c - min_lat c) / n := div_pos (by linarith) hn'
    have hstln : 0 < (max_lng c - min_lng c) / n := div_pos (by linarith) hn'
    have hila : (i : ℚ) + 1 ≤ n := by exact_mod_cast hi
    have hjla : (j : ℚ) + 1 ≤ n := by exact_mod_cast hj
    have hi0 : (0 : ℚ) ≤ i := Nat.cast_nonneg i
    have hj0 : (0 : ℚ) ≤ j := Nat.cast_nonneg j
    have hnla : (n : ℚ) * ((max_lat c - min_lat c) / n) = max_lat c - min_lat c := by
      field_simp
    have hnln : (n : ℚ) * ((max_lng c - min_lng c) / n) = max_lng c - min_lng c := by
      field_simp
    have hupla : (i : ℚ) * ((max_lat c - min_lat c) / n)
        + ((max_lat c - min_lat c) / n)
        ≤ (n : ℚ) * ((max_lat c - min_lat c) / n) := by
      nlinarith [hstla.le]
    have hupln : (j : ℚ) * ((max_lng c - min_lng c) / n)
        + ((max_lng c - min_lng c) / n)
        ≤ (n : ℚ) * ((max_lng c - min_lng c) / n) := by
      nlinarith [hstln.le]
    have hla0 : (0 : ℚ) ≤ (i : ℚ) * ((max_lat c - min_lat c) / n) := by positivity
    have hln0 : (0 : ℚ) ≤ (j : ℚ) * ((max_lng c - min_lng c) / n) := by positivity
    refine ⟨by simp only [mkSector]; ring, by simp only [mkSector]; ring,
      ?_, ?_, ?_, ?_⟩
    · show min_lat c < min_lat c + i * ((max_lat c - min_lat c) / n)
        + ((max_lat c - min_lat c) / n) / 2
      linarith
    · show min_lat c + i * ((max_lat c - min_lat c) / n)
        + ((max_lat c - min_lat c) / n) / 2 < max_lat c
      linarith
    · show min_lng c < min_lng c + j * ((max_lng c - min_lng c) / n)
        + ((max_lng c - min_lng c) / n) / 2
      linarith
    · show min_lng c + j * ((max_lng c - min_lng c) / n)
        + ((max_lng c - min_lng c) / n) / 2 < max_lng c
      linarith

/-- Witness for C1 at Spain with a 2×2 grid: 4 sectors. -/
theorem c1_generate_grid_witness : (generate .Spain 2).length = 2 ^ 2 :=
  (c1_generate_grid .Spain 2 (by omega)).1

end GScraper
